import Mathlib

/-!
Verification of the AGI protocol engine (package `agi`, files `agi.go` / `parsers.go`).

The embedding is a shallow one over `List Char`: a Go byte string is modelled as a
list of characters (all protocol data in scope is ASCII, so bytes and characters
coincide), and the buffered line reader is modelled as a `List (List Char)` of the
newline-terminated lines still to be read, each stored without its trailing
newline byte (the code strips that byte immediately after every read).  End of
stream is reached when the list is exhausted.  Go's `int` is a 64-bit machine
integer; it is modelled as `Int` together with the explicit bounds
`intMin = -2^63` and `intMax = 2^63 - 1` at the single place where overflow
matters (`strconv.Atoi`).
-/

/-- Model of Go `bytes.IndexByte`: index of the first occurrence of `c` in `l`,
or `-1` when `c` does not occur. -/
def indexByte : List Char → Char → Int
  | [], _ => -1
  | a :: as, c =>
    if a = c then 0
    else
      let r := indexByte as c
      if r < 0 then -1 else r + 1

/-- Decimal digit test used by Go's `strconv.ParseInt` in base 10. -/
def isDigitB (c : Char) : Bool := '0' ≤ c && c ≤ '9'

/-- Value of a list of decimal digit characters, most significant first. -/
def digitsToNat (ds : List Char) : Nat :=
  ds.foldl (fun a c => a * 10 + (c.toNat - 48)) 0

/-- Mathematical reading of a decimal integer token as accepted by
`strconv.ParseInt(s, 10, 0)`: an optional sign followed by a non-empty
run of decimal digits.  `none` when the token is not of that syntactic form. -/
def decValue : List Char → Option Int
  | [] => none
  | c :: ds =>
    if c = '-' then
      if ds ≠ [] ∧ ds.all isDigitB then some (-(digitsToNat ds : Int)) else none
    else if c = '+' then
      if ds ≠ [] ∧ ds.all isDigitB then some ((digitsToNat ds : Int)) else none
    else if (c :: ds).all isDigitB then some ((digitsToNat (c :: ds) : Int)) else none

/-- Smallest Go `int` (64-bit) value. -/
def intMin : Int := -(2 ^ 63)

/-- Largest Go `int` (64-bit) value. -/
def intMax : Int := 2 ^ 63 - 1

/-- The two failure modes of `strconv.Atoi`: a syntactically invalid token,
or a syntactically valid token whose value does not fit in `int`. -/
inductive AtoiErr where
  | errSyn : AtoiErr
  | errRange : AtoiErr
deriving DecidableEq

/-- Model of Go `strconv.Atoi` (64-bit `int`): on success the value and no
error; on a malformed token the pair `(0, ErrSyntax)`; on an out-of-range
token the clamped value and `ErrRange`. -/
def atoi (t : List Char) : Int × Option AtoiErr :=
  match decValue t with
  | none => (0, some AtoiErr.errSyn)
  | some v =>
    if v < intMin then (intMin, some AtoiErr.errRange)
    else if intMax < v then (intMax, some AtoiErr.errRange)
    else (v, none)

/-- Go struct `Reply` (`agi.go`): numeric result `Res` and additional data `Dat`. -/
structure Reply where
  Res : Int
  Dat : List Char
deriving DecidableEq

/-- The protocol errors produced by `parseResponse` and `sendMsg`
(`parsers.go`): the classified responses, the malformed-input errors (each
carrying the offending text exactly as the Go error message does), the wrapped
`strconv.Atoi` failure, the propagated read failure, and the error built from a
pending unsolicited line in `sendMsg`. -/
inductive AGIError where
  | hangupResponse : AGIError
  | err510 : AGIError
  | err511 : AGIError
  | err520 : AGIError
  | malformed200 : List Char → AGIError
  | malformedAGI : List Char → AGIError
  | failedToParse200 : AtoiErr → AGIError
  | readErr : AGIError
  | unsolicited : List Char → AGIError
deriving DecidableEq

/-- Body of the `"200"` case of `parseResponse` after the `"200 result="`
prefix has been stripped (`parsers.go` lines 102-120 and the fall-through to
line 122, which at that point quotes the truncated line). -/
def parse200Res (l2 : List Char) : Reply × Option AGIError :=
  let spInd := indexByte l2 ' '
  if spInd < 0 then
    match atoi l2 with
    | (v, none) => (⟨v, []⟩, none)
    | (v, some ae) => (⟨v, []⟩, some (AGIError.failedToParse200 ae))
  else if 0 < spInd ∧ spInd < (l2.length : Int) - 1 then
    match atoi (l2.take spInd.toNat) with
    | (v, none) => (⟨v, l2.drop (spInd.toNat + 1)⟩, none)
    | (v, some ae) => (⟨v, l2.drop (spInd.toNat + 1)⟩, some (AGIError.failedToParse200 ae))
  else (⟨0, []⟩, some (AGIError.malformed200 l2))

/-- The `"200"` case of `parseResponse` (`parsers.go` lines 98-122): accept when
the first `=` sits at index `len("200 result") = 10` and is not the final
character, otherwise a malformed-200 error quoting the whole line. -/
def parse200 (line : List Char) : Reply × Option AGIError :=
  let eqInd := indexByte line '='
  if eqInd = 10 ∧ eqInd < (line.length : Int) - 1 then
    parse200Res (line.drop (eqInd.toNat + 1))
  else (⟨0, []⟩, some (AGIError.malformed200 line))

/-- Model of `parseResponse` (`parsers.go` lines 79-136).  The input is the list
of lines still unread; the result is the `(Reply, error)` pair together with
the lines left unread afterwards (the stream position). -/
def parseResponse (input : List (List Char)) : (Reply × Option AGIError) × List (List Char) :=
  match input with
  | [] => ((⟨0, []⟩, some AGIError.readErr), [])
  | line :: rest =>
    let ind := indexByte line ' '
    if ind ≤ 0 ∨ ind = (line.length : Int) - 1 then
      if line = ("HANGUP").toList then ((⟨0, []⟩, some AGIError.hangupResponse), rest)
      else ((⟨0, []⟩, some (AGIError.malformedAGI line)), rest)
    else
      let tok := line.take ind.toNat
      if tok = ("200").toList then (parse200 line, rest)
      else if tok = ("510").toList then ((⟨0, []⟩, some AGIError.err510), rest)
      else if tok = ("511").toList then ((⟨0, []⟩, some AGIError.err511), rest)
      else if tok = ("520").toList then ((⟨0, []⟩, some AGIError.err520), rest)
      else if tok = ("520-Invalid").toList then
        ((⟨0, []⟩, some AGIError.err520), rest.drop 1)
      else ((⟨0, []⟩, some (AGIError.malformedAGI line)), rest)

/-- Model of Go `strings.Replace(s, old, new, -1)` for one-character patterns,
which replaces every occurrence byte for byte. -/
def replaceAll (s : List Char) (a b : Char) : List Char :=
  s.map (fun c => if c = a then b else c)

/-- Model of the session transport state seen by `sendMsg`: `buffered` holds
lines already sitting unread in the reader buffer (`Buffered() != 0` detects
them), `incoming` the lines that arrive once the command has been flushed, and
`output` every byte written so far. -/
structure Session where
  buffered : List (List Char)
  incoming : List (List Char)
  output : List Char
deriving DecidableEq

/-- Model of `sendMsg` (`parsers.go` lines 61-76): bail out with the pending
unsolicited line if the reader buffer is non-empty; otherwise sanitize the
command, write it with a single newline terminator, and parse the response. -/
def sendMsg (a : Session) (s : List Char) : (Reply × Option AGIError) × Session :=
  match a.buffered with
  | line :: brest => ((⟨0, []⟩, some (AGIError.unsolicited line)), { a with buffered := brest })
  | [] =>
    let wire := replaceAll (replaceAll s '\r' ' ') '\n' ' ' ++ ['\n']
    let withOut := { a with output := a.output ++ wire }
    let res := parseResponse withOut.incoming
    (res.1, { withOut with incoming := res.2 })

/-- Minimum number of AGI environment args (`parsers.go`). -/
def envMin : Nat := 18

/-- Maximum number of AGI environment args, a cap on read iterations (`parsers.go`). -/
def envMax : Nat := 150

/-- Errors produced by `parseEnv`: the malformed-line error quoting the line,
the incomplete-environment error carrying the entry count, and a propagated
read failure (end of stream). -/
inductive EnvErr where
  | envMalformed : List Char → EnvErr
  | envIncomplete : Nat → EnvErr
  | envEOF : EnvErr
deriving DecidableEq

/-- Body of the `parseEnv` loop for one non-blank line (`parsers.go` lines
41-51): the first colon must lie between `len("agi_type") = 8` and
`len("agi_network_script") = 18` and must not be the final character; the key
is the text between the 4-character prefix and the colon, the value everything
from two bytes after the colon on. -/
def parseEnvLine (line : List Char) : Except EnvErr (List Char × List Char) :=
  let ind := indexByte line ':'
  if ind < 8 ∨ 18 < ind ∨ ind = (line.length : Int) - 1 then
    Except.error (EnvErr.envMalformed line)
  else
    Except.ok ((line.take ind.toNat).drop 4, line.drop (ind.toNat + 2))

/-- Go map assignment `a.Env[key] = value` on an association-list model of the
map: overwrite the entry when the key is present, append it otherwise.  Built
only through this operation from the empty list, the keys stay pairwise
distinct, so the list length is the map's entry count. -/
def envInsert (env : List (List Char × List Char)) (kv : List Char × List Char) :
    List (List Char × List Char) :=
  if env.any (fun p => p.1 = kv.1) then
    env.map (fun p => if p.1 = kv.1 then kv else p)
  else env ++ [kv]

/-- Outcome of the `parseEnv` read loop: the map built so far, the value of the
`err` variable on loop exit, the lines left unread, and whether the loop was
left through the early `return` of the malformed-line branch. -/
structure LoopOut where
  env : List (List Char × List Char)
  err : Option EnvErr
  rest : List (List Char)
  aborted : Bool
deriving DecidableEq

/-- The `parseEnv` read loop (`parsers.go` lines 34-52).  The fuel counts the
remaining read iterations (`for i := 0; i <= envMax; i++` performs at most
`envMax + 1` reads).  A read at end of stream fails and breaks the loop leaving
the read error in `err`; a line whose length including its newline byte is at
most `len("\r\n") = 2` breaks the loop with `err = nil`; a malformed line
returns immediately; otherwise the parsed pair is stored and the loop goes on. -/
def envLoop : Nat → List (List Char) → List (List Char × List Char) → LoopOut
  | 0, input, env => ⟨env, none, input, false⟩
  | _ + 1, [], env => ⟨env, some EnvErr.envEOF, [], false⟩
  | fuel + 1, line :: rest, env =>
    if line.length + 1 ≤ 2 then ⟨env, none, rest, false⟩
    else
      match parseEnvLine line with
      | Except.error e => ⟨env, some e, rest, true⟩
      | Except.ok kv => envLoop fuel rest (envInsert env kv)

/-- Result of `parseEnv`: the final value of `a.Env` (`none` models the Go
`nil` map), the returned error, and the stream position. -/
structure EnvParse where
  env : Option (List (List Char × List Char))
  err : Option EnvErr
  rest : List (List Char)
deriving DecidableEq

/-- Model of `parseEnv` (`parsers.go` lines 31-58): run the read loop from an
empty map, keep the malformed-line error with `Env = nil` on an early return,
discard the map and report incompleteness when fewer than `envMin` entries were
collected, and otherwise keep the map and return whatever error the loop left
behind. -/
def parseEnv (input : List (List Char)) : EnvParse :=
  let L := envLoop (envMax + 1) input []
  if L.aborted then ⟨none, L.err, L.rest⟩
  else if L.env.length < envMin then ⟨none, some (EnvErr.envIncomplete L.env.length), L.rest⟩
  else ⟨some L.env, L.err, L.rest⟩

/-- Spec-side description of the per-character effect of the two
`strings.Replace` sanitization passes in `sendMsg`. -/
def sanitizeChar (c : Char) : Char :=
  if c = '\r' ∨ c = '\n' then ' ' else c

/-- Spec-side description of the structural success shapes of a `200` line:
first `=` at index 10 and not final, and the text after it either without any
space or with its first space neither leading nor trailing.  Lines with status
token `200` that fail this test take the malformed-200 branch. -/
def accept200 (line : List Char) : Prop :=
  indexByte line '=' = 10 ∧ indexByte line '=' < (line.length : Int) - 1 ∧
    (indexByte (line.drop 11) ' ' < 0 ∨
      (0 < indexByte (line.drop 11) ' ' ∧
        indexByte (line.drop 11) ' ' < ((line.drop 11).length : Int) - 1))

instance (line : List Char) : Decidable (accept200 line) := by
  unfold accept200; infer_instance

/-- An environment line `agi_<key>: <value>` as described by the wire format. -/
def mkEnvLine (k v : List Char) : List Char :=
  ("agi_").toList ++ k ++ ':' :: ' ' :: v

/-- A key acceptable to `parseEnv`: between 4 and 14 characters (so that the
colon falls between index 8 and 18) and containing no colon of its own. -/
def wfKey (k : List Char) : Prop :=
  4 ≤ k.length ∧ k.length ≤ 14 ∧ ':' ∉ k

instance (k : List Char) : Decidable (wfKey k) := by
  unfold wfKey; infer_instance

/-- Eighteen distinct well-formed environment entries, taken from the
repository's own test data. -/
def sampleKVs : List (List Char × List Char) :=
  [(("network").toList, ("yes").toList),
   (("network_script").toList, ("foo?").toList),
   (("request").toList, ("agi://127.0.0.1/foo?").toList),
   (("channel").toList, ("SIP/1234-00000000").toList),
   (("language").toList, ("en").toList),
   (("type").toList, ("SIP").toList),
   (("uniqueid").toList, ("1397044468.0").toList),
   (("version").toList, ("0.1").toList),
   (("callerid").toList, ("1001").toList),
   (("calleridname").toList, ("1001").toList),
   (("callingpres").toList, ("67").toList),
   (("callingani2").toList, ("0").toList),
   (("callington").toList, ("0").toList),
   (("callingtns").toList, ("0").toList),
   (("dnid").toList, ("123456").toList),
   (("rdnis").toList, ("unknown").toList),
   (("context").toList, ("default").toList),
   (("extension").toList, ("123456").toList)]

/-! ### Helper lemmas about `indexByte` -/

theorem indexByte_of_not_mem {l : List Char} {c : Char} (h : c ∉ l) :
    indexByte l c = -1 := by
  induction l with
  | nil => rfl
  | cons a as ih =>
    have ha : a ≠ c := fun e => h (e ▸ List.mem_cons_self a as)
    have has : c ∉ as := fun m => h (List.mem_cons_of_mem a m)
    simp [indexByte, ha, ih has]

theorem indexByte_append_cons {l1 : List Char} {c : Char} (l2 : List Char) (h : c ∉ l1) :
    indexByte (l1 ++ c :: l2) c = l1.length := by
  induction l1 with
  | nil => simp [indexByte]
  | cons a as ih =>
    have ha : a ≠ c := fun e => h (e ▸ List.mem_cons_self a as)
    have has : c ∉ as := fun m => h (List.mem_cons_of_mem a m)
    have hr := ih has
    have step : indexByte ((a :: as) ++ c :: l2) c
        = if indexByte (as ++ c :: l2) c < 0 then -1 else indexByte (as ++ c :: l2) c + 1 := by
      rw [List.cons_append]
      show (if a = c then 0
        else if indexByte (as ++ c :: l2) c < 0 then -1 else indexByte (as ++ c :: l2) c + 1) = _
      rw [if_neg ha]
    rw [step, hr]
    have hnn : ¬ ((as.length : Int) < 0) := by omega
    rw [if_neg hnn]
    simp only [List.length_cons]
    push_cast
    ring

theorem indexByte_nonneg_lt {l : List Char} {c : Char} (h : 0 ≤ indexByte l c) :
    indexByte l c < (l.length : Int) := by
  induction l with
  | nil => simp [indexByte] at h
  | cons a as ih =>
    by_cases ha : a = c
    · simp [indexByte, ha]
    · simp only [indexByte, ha, if_false] at h ⊢
      by_cases hr : indexByte as c < 0
      · simp [hr] at h
      · have h0 : 0 ≤ indexByte as c := by omega
        have := ih h0
        simp only [hr, if_false] at h ⊢
        simp only [List.length_cons]
        push_cast
        omega

/-! ### Helper lemmas about `decValue` and `atoi` -/

theorem decValue_mem {t : List Char} {n : Int} (h : decValue t = some n) :
    ∀ c ∈ t, c = '-' ∨ c = '+' ∨ isDigitB c := by
  cases t with
  | nil => simp [decValue] at h
  | cons a ds =>
    simp only [decValue] at h
    split at h
    · rename_i ha
      split at h
      · rename_i hd
        intro c hc
        rcases List.mem_cons.mp hc with rfl | hcds
        · left; exact ha
        · right; right; exact List.all_eq_true.mp hd.2 c hcds
      · exact absurd h (by simp)
    · rename_i ha
      split at h
      · rename_i hb
        split at h
        · rename_i hd
          intro c hc
          rcases List.mem_cons.mp hc with rfl | hcds
          · right; left; exact hb
          · right; right; exact List.all_eq_true.mp hd.2 c hcds
        · exact absurd h (by simp)
      · rename_i hb
        split at h
        · rename_i hd
          intro c hc
          right; right
          exact List.all_eq_true.mp hd c hc
        · exact absurd h (by simp)

theorem decValue_ne_nil {t : List Char} {n : Int} (h : decValue t = some n) : t ≠ [] := by
  intro e; subst e; simp [decValue] at h

theorem decValue_not_mem_space {t : List Char} {n : Int} (h : decValue t = some n) :
    ' ' ∉ t := by
  intro hm
  rcases decValue_mem h ' ' hm with e | e | e <;> simp [isDigitB] at e

theorem decValue_not_mem_eq {t : List Char} {n : Int} (h : decValue t = some n) :
    '=' ∉ t := by
  intro hm
  rcases decValue_mem h '=' hm with e | e | e <;> simp [isDigitB] at e

theorem atoi_of_decValue {t : List Char} {n : Int} (h : decValue t = some n)
    (h1 : intMin ≤ n) (h2 : n ≤ intMax) : atoi t = (n, none) := by
  simp only [atoi, h]
  have : ¬ n < intMin := by omega
  have h2x : ¬ intMax < n := by omega
  simp [this, h2x]

/-! ### Helper lemmas about `parse200` and `parseResponse` -/

theorem parse200Res_nospace {t : List Char} {n : Int} (h : decValue t = some n)
    (h1 : intMin ≤ n) (h2 : n ≤ intMax) : parse200Res t = (⟨n, []⟩, none) := by
  have hsp : indexByte t ' ' = -1 := indexByte_of_not_mem (decValue_not_mem_space h)
  have hv := atoi_of_decValue h h1 h2
  simp only [parse200Res, hsp]
  norm_num
  simp [hv]

theorem parse200Res_space {t rest : List Char} {n : Int} (h : decValue t = some n)
    (h1 : intMin ≤ n) (h2 : n ≤ intMax) (hr : rest ≠ []) :
    parse200Res (t ++ ' ' :: rest) = (⟨n, rest⟩, none) := by
  have hs : ' ' ∉ t := decValue_not_mem_space h
  have hsp : indexByte (t ++ ' ' :: rest) ' ' = t.length := indexByte_append_cons rest hs
  have ht0 : t ≠ [] := decValue_ne_nil h
  have htl : 0 < t.length := List.length_pos.mpr ht0
  have hrl : 0 < rest.length := List.length_pos.mpr hr
  have hv := atoi_of_decValue h h1 h2
  have hlen : ((t ++ ' ' :: rest).length : Int) = t.length + 1 + rest.length := by
    simp; ring
  have hcondneg : ¬ ((t.length : Int) < 0) := by omega
  have hcond2 : 0 < (t.length : Int) ∧ (t.length : Int) < ((t ++ ' ' :: rest).length : Int) - 1 := by
    constructor
    · omega
    · rw [hlen]; omega
  have htake : (t ++ ' ' :: rest).take ((t.length : Int)).toNat = t := by
    rw [Int.toNat_natCast]
    exact List.take_left t (' ' :: rest)
  have hdrop : (t ++ ' ' :: rest).drop (((t.length : Int)).toNat + 1) = rest := by
    rw [Int.toNat_natCast]
    have : t ++ ' ' :: rest = (t ++ [' ']) ++ rest := by simp
    rw [this]
    exact List.drop_left' (by simp)
  simp only [parse200Res, hsp, hcondneg, if_false, htake, hdrop, hv]
  rw [if_pos hcond2]

theorem parse200_resultHead {t2 : List Char} (h : t2 ≠ []) :
    parse200 (("200 result=").toList ++ t2) = parse200Res t2 := by
  have hsplit : ("200 result=").toList ++ t2 = ("200 result").toList ++ '=' :: t2 := rfl
  have heq : indexByte (("200 result=").toList ++ t2) '=' = 10 := by
    rw [hsplit]
    have hnm : '=' ∉ ("200 result").toList := by decide
    have := indexByte_append_cons t2 hnm
    simpa using this
  have hlen : ((("200 result=").toList ++ t2).length : Int) = 11 + t2.length := by
    simp
    omega
  have hcond : (10 : Int) = 10 ∧ (10 : Int) < ((("200 result=").toList ++ t2).length : Int) - 1 := by
    refine ⟨rfl, ?_⟩
    have : 0 < t2.length := List.length_pos.mpr h
    rw [hlen]; omega
  have hdrop : (("200 result=").toList ++ t2).drop (((10 : Int)).toNat + 1) = t2 :=
    List.drop_left' (by decide)
  simp only [parse200, heq, hcond, and_self, if_true, hdrop]

theorem parseResponse_dispatch (tk r : List Char) (htk : ' ' ∉ tk) (htk0 : tk ≠ [])
    (hr : r ≠ []) (inp : List (List Char)) :
    parseResponse ((tk ++ ' ' :: r) :: inp)
      = (if tk = ("200").toList then (parse200 (tk ++ ' ' :: r), inp)
         else if tk = ("510").toList then ((⟨0, []⟩, some AGIError.err510), inp)
         else if tk = ("511").toList then ((⟨0, []⟩, some AGIError.err511), inp)
         else if tk = ("520").toList then ((⟨0, []⟩, some AGIError.err520), inp)
         else if tk = ("520-Invalid").toList then ((⟨0, []⟩, some AGIError.err520), inp.drop 1)
         else ((⟨0, []⟩, some (AGIError.malformedAGI (tk ++ ' ' :: r))), inp)) := by
  have hsp : indexByte (tk ++ ' ' :: r) ' ' = tk.length := indexByte_append_cons r htk
  have htl : 0 < tk.length := List.length_pos.mpr htk0
  have hrl : 0 < r.length := List.length_pos.mpr hr
  have hlen : ((tk ++ ' ' :: r).length : Int) = tk.length + 1 + r.length := by simp; ring
  have hcond : ¬ ((tk.length : Int) ≤ 0 ∨ (tk.length : Int) = ((tk ++ ' ' :: r).length : Int) - 1) := by
    rw [hlen]
    omega
  have htake : (tk ++ ' ' :: r).take ((tk.length : Int)).toNat = tk := by
    rw [Int.toNat_natCast]
    exact List.take_left tk (' ' :: r)
  simp only [parseResponse, hsp, hcond, if_false, htake]

/-! ### Helper lemmas about the sanitization in `sendMsg` -/

theorem replaceAll_twice_eq_map (s : List Char) :
    replaceAll (replaceAll s '\r' ' ') '\n' ' ' = s.map sanitizeChar := by
  induction s with
  | nil => rfl
  | cons a as ih =>
    have hhead : (if (if a = '\r' then ' ' else a) = '\n' then ' '
        else if a = '\r' then ' ' else a) = sanitizeChar a := by
      unfold sanitizeChar
      by_cases h1 : a = '\r'
      · subst h1; decide
      · by_cases h2 : a = '\n'
        · subst h2; decide
        · simp [h1, h2]
    show (if (if a = '\r' then ' ' else a) = '\n' then ' '
        else if a = '\r' then ' ' else a) :: replaceAll (replaceAll as '\r' ' ') '\n' ' '
      = sanitizeChar a :: as.map sanitizeChar
    rw [hhead, ih]

theorem sanitizeChar_ne_cr (c : Char) : sanitizeChar c ≠ '\r' := by
  unfold sanitizeChar
  split
  · decide
  · rename_i h
    intro e
    exact h (Or.inl e)

theorem sanitizeChar_ne_lf (c : Char) : sanitizeChar c ≠ '\n' := by
  unfold sanitizeChar
  split
  · decide
  · rename_i h
    intro e
    exact h (Or.inr e)

/-! ### Helper lemmas about `parseEnvLine` and `envLoop` -/

theorem mkEnvLine_length (k v : List Char) :
    (mkEnvLine k v).length = 6 + k.length + v.length := by
  simp [mkEnvLine]
  omega

theorem indexByte_mkEnvLine (k v : List Char) (h : ':' ∉ k) :
    indexByte (mkEnvLine k v) ':' = 4 + k.length := by
  have hm : ':' ∉ ("agi_").toList ++ k := by
    intro hx
    rcases List.mem_append.mp hx with hx | hx
    · exact absurd hx (by decide)
    · exact h hx
  have hassoc : mkEnvLine k v = (("agi_").toList ++ k) ++ ':' :: ' ' :: v := by
    simp [mkEnvLine]
  rw [hassoc, indexByte_append_cons (' ' :: v) hm]
  simp
  omega

theorem parseEnvLine_mk {k : List Char} (v : List Char) (h : wfKey k) :
    parseEnvLine (mkEnvLine k v) = Except.ok (k, v) := by
  obtain ⟨h4, h14, hnc⟩ := h
  have hind := indexByte_mkEnvLine k v hnc
  have hlen := mkEnvLine_length k v
  have hcond : ¬ (indexByte (mkEnvLine k v) ':' < 8 ∨ 18 < indexByte (mkEnvLine k v) ':' ∨
      indexByte (mkEnvLine k v) ':' = ((mkEnvLine k v).length : Int) - 1) := by
    rw [hind, hlen]
    push_cast
    omega
  have htoNat : ((4 + (k.length : Int))).toNat = 4 + k.length := by omega
  have htake : (mkEnvLine k v).take (4 + k.length) = ("agi_").toList ++ k := by
    have hassoc : mkEnvLine k v = (("agi_").toList ++ k) ++ ':' :: ' ' :: v := by
      simp [mkEnvLine]
    rw [hassoc]
    exact List.take_left' (by simp; omega)
  have hdropkey : (("agi_").toList ++ k).drop 4 = k := List.drop_left' (by decide)
  have hdropval : (mkEnvLine k v).drop (4 + k.length + 2) = v := by
    have hassoc : mkEnvLine k v = ((("agi_").toList ++ k) ++ [':', ' ']) ++ v := by
      simp [mkEnvLine]
    rw [hassoc]
    exact List.drop_left' (by simp; omega)
  have hcond2 : ¬ ((4 : Int) + k.length < 8 ∨ 18 < (4 : Int) + k.length ∨
      (4 : Int) + k.length = ((mkEnvLine k v).length : Int) - 1) := by
    rw [hlen]
    push_cast
    omega
  simp only [parseEnvLine, hind, htoNat, hcond2, if_false, htake, hdropkey, hdropval]

theorem envLoop_cons_wf {k : List Char} (v : List Char) (h : wfKey k)
    (fuel : Nat) (rest : List (List Char)) (env : List (List Char × List Char)) :
    envLoop (fuel + 1) (mkEnvLine k v :: rest) env = envLoop fuel rest (envInsert env (k, v)) := by
  have hlen := mkEnvLine_length k v
  have hnb : ¬ ((mkEnvLine k v).length + 1 ≤ 2) := by omega
  simp only [envLoop, hnb, if_false, parseEnvLine_mk v h]

theorem envLoop_block (kvs : List (List Char × List Char)) :
    ∀ (fuel : Nat) (rest : List (List Char)) (env : List (List Char × List Char)),
    (∀ kv ∈ kvs, wfKey kv.1) → kvs.length ≤ fuel →
    envLoop fuel (kvs.map (fun kv => mkEnvLine kv.1 kv.2) ++ rest) env
      = envLoop (fuel - kvs.length) rest (kvs.foldl envInsert env) := by
  induction kvs with
  | nil => intro fuel rest env _ _; simp
  | cons kv kvs ih =>
    intro fuel rest env hwf hfuel
    obtain ⟨f, rfl⟩ : ∃ f, fuel = f + 1 := by
      cases fuel
      · simp at hfuel
      · exact ⟨_, rfl⟩
    have h1 : wfKey kv.1 := hwf kv (List.mem_cons_self kv kvs)
    simp only [List.map_cons, List.cons_append]
    rw [envLoop_cons_wf kv.2 h1]
    have hwf' : ∀ p ∈ kvs, wfKey p.1 := fun p hp => hwf p (List.mem_cons_of_mem kv hp)
    have hfuel' : kvs.length ≤ f := by simp at hfuel; omega
    rw [ih f rest (envInsert env (kv.1, kv.2)) hwf' hfuel']
    simp [List.foldl_cons]

theorem envInsert_not_mem {env : List (List Char × List Char)} {kv : List Char × List Char}
    (h : kv.1 ∉ env.map Prod.fst) : envInsert env kv = env ++ [kv] := by
  unfold envInsert
  have : env.any (fun p => p.1 = kv.1) = false := by
    rw [List.any_eq_false]
    intro p hp
    simp only [decide_eq_true_eq]
    intro e
    exact h (e ▸ List.mem_map_of_mem Prod.fst hp)
  simp [this]

theorem foldl_envInsert_nodup (kvs : List (List Char × List Char)) :
    ∀ env : List (List Char × List Char),
    (env.map Prod.fst ++ kvs.map Prod.fst).Nodup →
    kvs.foldl envInsert env = env ++ kvs := by
  induction kvs with
  | nil => intro env _; simp
  | cons kv kvs ih =>
    intro env hnd
    have hk : kv.1 ∉ env.map Prod.fst := by
      intro hx
      exact (List.nodup_append.mp hnd).2.2 hx (by simp)
    rw [List.foldl_cons, envInsert_not_mem hk, ih (env ++ [kv])]
    · simp
    · simp only [List.map_append, List.map_cons, List.map_nil] at hnd ⊢
      rw [List.append_assoc]
      simpa using hnd

theorem envLoop_zero (input : List (List Char)) (env : List (List Char × List Char)) :
    envLoop 0 input env = ⟨env, none, input, false⟩ := rfl

theorem envLoop_eof (fuel : Nat) (env : List (List Char × List Char)) :
    envLoop (fuel + 1) [] env = ⟨env, some EnvErr.envEOF, [], false⟩ := rfl

theorem envLoop_blank (fuel : Nat) (rest : List (List Char)) (env : List (List Char × List Char)) :
    envLoop (fuel + 1) ([] :: rest) env = ⟨env, none, rest, false⟩ := rfl

theorem parse200_eq_at10 (pre rest : List Char) (hpre : pre.length = 10) (hnm : '=' ∉ pre)
    (hr : rest ≠ []) : parse200 (pre ++ '=' :: rest) = parse200Res rest := by
  have heq : indexByte (pre ++ '=' :: rest) '=' = 10 := by
    rw [indexByte_append_cons rest hnm, hpre]
    simp
  have hlen : ((pre ++ '=' :: rest).length : Int) = 11 + rest.length := by
    simp [hpre]
    omega
  have hcond : (10 : Int) = 10 ∧ (10 : Int) < ((pre ++ '=' :: rest).length : Int) - 1 := by
    refine ⟨rfl, ?_⟩
    have : 0 < rest.length := List.length_pos.mpr hr
    rw [hlen]
    omega
  have hdrop : (pre ++ '=' :: rest).drop (((10 : Int)).toNat + 1) = rest := by
    have hx : pre ++ '=' :: rest = (pre ++ ['=']) ++ rest := by simp
    rw [hx]
    exact List.drop_left' (by simp [hpre])
  simp only [parse200, heq, hcond, and_self, if_true, hdrop]

/-! ### Claim theorems -/

/-- Claim C6: for every command string, when `sendMsg` reaches its write (no
pending buffered data), the bytes it appends to the transport are the command
with every carriage return and every newline replaced by a single space,
followed by exactly one newline terminator, so the wire line contains no
embedded CR or LF characters. -/
theorem sendMsg_sanitizes_wire (a : Session) (s : List Char) (h : a.buffered = []) :
    (sendMsg a s).2.output = a.output ++ s.map sanitizeChar ++ ['\n']
    ∧ '\r' ∉ s.map sanitizeChar ∧ '\n' ∉ s.map sanitizeChar
    ∧ List.count '\n' (s.map sanitizeChar ++ ['\n']) = 1 := by
  obtain ⟨ab, ai, ao⟩ := a
  simp only at h
  subst h
  refine ⟨?_, ?_, ?_, ?_⟩
  · simp only [sendMsg, replaceAll_twice_eq_map]
    simp [List.append_assoc]
  · intro hm
    obtain ⟨c, _, hc⟩ := List.mem_map.mp hm
    exact sanitizeChar_ne_cr c hc
  · intro hm
    obtain ⟨c, _, hc⟩ := List.mem_map.mp hm
    exact sanitizeChar_ne_lf c hc
  · rw [List.count_append]
    have h0 : List.count '\n' (s.map sanitizeChar) = 0 := by
      rw [List.count_eq_zero]
      intro hm
      obtain ⟨c, _, hc⟩ := List.mem_map.mp hm
      exact sanitizeChar_ne_lf c hc
    rw [h0]
    decide

/-- Witness for C6 at the concrete command `SAY\r\nDIGITS` on a fresh session. -/
theorem sendMsg_sanitizes_wire_witness :
    (sendMsg ⟨[], [], []⟩ (("SAY\r\nDIGITS").toList)).2.output
        = [] ++ (("SAY\r\nDIGITS").toList).map sanitizeChar ++ ['\n']
    ∧ '\r' ∉ (("SAY\r\nDIGITS").toList).map sanitizeChar
    ∧ '\n' ∉ (("SAY\r\nDIGITS").toList).map sanitizeChar
    ∧ List.count '\n' ((("SAY\r\nDIGITS").toList).map sanitizeChar ++ ['\n']) = 1 :=
  sendMsg_sanitizes_wire ⟨[], [], []⟩ (("SAY\r\nDIGITS").toList) rfl

/-- Claim C4: a reply whose status token is `520-Invalid` yields the
invalid-command-syntax error and additionally consumes exactly one more full
line (the usage line), so the next read starts after that second line; a plain
`520` token consumes only the status line. -/
theorem parseResponse_520Invalid_consumes_doc :
    (∀ (t doc : List Char) (inp : List (List Char)), t ≠ [] →
      parseResponse ((("520-Invalid ").toList ++ t) :: doc :: inp)
        = ((⟨0, []⟩, some AGIError.err520), inp))
    ∧ (∀ (t : List Char) (inp : List (List Char)), t ≠ [] →
      parseResponse ((("520 ").toList ++ t) :: inp)
        = ((⟨0, []⟩, some AGIError.err520), inp)) := by
  constructor
  · intro t doc inp ht
    have hstep : ("520-Invalid ").toList ++ t = ("520-Invalid").toList ++ ' ' :: t := rfl
    rw [hstep, parseResponse_dispatch (("520-Invalid").toList) t (by decide) (by decide) ht
      (doc :: inp)]
    rw [if_neg (by decide), if_neg (by decide), if_neg (by decide), if_neg (by decide),
      if_pos rfl]
    rfl
  · intro t inp ht
    have hstep : ("520 ").toList ++ t = ("520").toList ++ ' ' :: t := rfl
    rw [hstep, parseResponse_dispatch (("520").toList) t (by decide) (by decide) ht inp]
    rw [if_neg (by decide), if_neg (by decide), if_neg (by decide), if_pos rfl]

/-- Witness for C4 at the concrete replies from the repository's test data. -/
theorem parseResponse_520Invalid_consumes_doc_witness :
    parseResponse ((("520-Invalid ").toList
          ++ ("command line.  Proper usage follows:").toList)
        :: (("Answers channel if not already in answer state.").toList)
        :: ([] : List (List Char)))
      = ((⟨0, []⟩, some AGIError.err520), [])
    ∧ parseResponse ((("520 ").toList ++ ("Invalid command line.").toList)
        :: ([] : List (List Char)))
      = ((⟨0, []⟩, some AGIError.err520), []) :=
  ⟨parseResponse_520Invalid_consumes_doc.1 (("command line.  Proper usage follows:").toList)
      (("Answers channel if not already in answer state.").toList) [] (by decide),
   parseResponse_520Invalid_consumes_doc.2 (("Invalid command line.").toList) [] (by decide)⟩

/-- Claim C5: a reply line with no space, or whose only space is its final
character, yields the distinguished hangup error when it is exactly `HANGUP`
and the malformed/partial-response error quoting the line otherwise; the two
errors are distinguishable and no valid Reply is produced in either case. -/
theorem parseResponse_nospace_classification (line : List Char) (inp : List (List Char))
    (h : ' ' ∉ line ∨ ∃ l1, ' ' ∉ l1 ∧ line = l1 ++ [' ']) :
    parseResponse (line :: inp)
        = ((⟨0, []⟩, some (if line = ("HANGUP").toList then AGIError.hangupResponse
            else AGIError.malformedAGI line)), inp)
    ∧ AGIError.hangupResponse ≠ AGIError.malformedAGI line := by
  have hbranch : indexByte line ' ' ≤ 0 ∨ indexByte line ' ' = (line.length : Int) - 1 := by
    rcases h with h | ⟨l1, hn, rfl⟩
    · left
      rw [indexByte_of_not_mem h]
      omega
    · right
      have : l1 ++ [' '] = l1 ++ ' ' :: [] := rfl
      rw [this, indexByte_append_cons [] hn]
      simp
  constructor
  · simp only [parseResponse]
    rw [if_pos hbranch]
    by_cases hH : line = ("HANGUP").toList
    · rw [if_pos hH, if_pos hH]
    · rw [if_neg hH, if_neg hH]
  · intro e
    exact AGIError.noConfusion e

/-- Witness for C5 at the bare `HANGUP` line and at a malformed line. -/
theorem parseResponse_nospace_classification_witness :
    (parseResponse ((("HANGUP").toList) :: ([] : List (List Char)))
        = ((⟨0, []⟩, some (if ("HANGUP").toList = ("HANGUP").toList then
            AGIError.hangupResponse else AGIError.malformedAGI (("HANGUP").toList))), [])
      ∧ AGIError.hangupResponse ≠ AGIError.malformedAGI (("HANGUP").toList))
    ∧ (parseResponse ((("pardon?").toList) :: ([] : List (List Char)))
        = ((⟨0, []⟩, some (if ("pardon?").toList = ("HANGUP").toList then
            AGIError.hangupResponse else AGIError.malformedAGI (("pardon?").toList))), [])
      ∧ AGIError.hangupResponse ≠ AGIError.malformedAGI (("pardon?").toList)) :=
  ⟨parseResponse_nospace_classification (("HANGUP").toList) [] (Or.inl (by decide)),
   parseResponse_nospace_classification (("pardon?").toList) [] (Or.inl (by decide))⟩

/-- Claim C1: `200 result=N` with a numeric token parses to `Res = N` with
empty `Dat` and no error; `200 result=N <rest>` with non-empty rest parses to
`Res = N` and `Dat = rest` (the single separating space stripped); and any
line with status token `200` that does not match the structural
`200 result=...` success shapes yields a malformed-200 error.  (A line that
matches the shape but whose numeric token fails conversion takes the distinct
parse-failure error instead; that case is covered by claim C3's sources.) -/
theorem parseResponse_200_success_shapes :
    (∀ (t : List Char) (n : Int) (inp : List (List Char)),
      decValue t = some n → intMin ≤ n → n ≤ intMax →
      parseResponse ((("200 result=").toList ++ t) :: inp) = ((⟨n, []⟩, none), inp))
    ∧ (∀ (t rest : List Char) (n : Int) (inp : List (List Char)),
      decValue t = some n → intMin ≤ n → n ≤ intMax → rest ≠ [] →
      parseResponse ((("200 result=").toList ++ t ++ ' ' :: rest) :: inp)
        = ((⟨n, rest⟩, none), inp))
    ∧ (∀ (r : List Char) (inp : List (List Char)), r ≠ [] →
      ¬ accept200 (("200 ").toList ++ r) →
      ∃ s, parseResponse ((("200 ").toList ++ r) :: inp)
        = ((⟨0, []⟩, some (AGIError.malformed200 s)), inp)) := by
  refine ⟨?_, ?_, ?_⟩
  · intro t n inp hd h1 h2
    have ht0 : t ≠ [] := decValue_ne_nil hd
    have hr : ("result=").toList ++ t ≠ [] := by simp
    have hstep : ("200 result=").toList ++ t = ("200").toList ++ ' ' :: (("result=").toList ++ t) := rfl
    rw [hstep, parseResponse_dispatch (("200").toList) (("result=").toList ++ t)
      (by decide) (by decide) hr inp, if_pos rfl]
    rw [show ("200").toList ++ ' ' :: (("result=").toList ++ t) = ("200 result=").toList ++ t
      from rfl]
    rw [parse200_resultHead ht0, parse200Res_nospace hd h1 h2]
  · intro t rest n inp hd h1 h2 hrest
    have ht2 : t ++ ' ' :: rest ≠ [] := by simp
    have hr : ("result=").toList ++ (t ++ ' ' :: rest) ≠ [] := by simp
    have hstep : ("200 result=").toList ++ t ++ ' ' :: rest
        = ("200").toList ++ ' ' :: (("result=").toList ++ (t ++ ' ' :: rest)) := rfl
    rw [hstep, parseResponse_dispatch (("200").toList) (("result=").toList ++ (t ++ ' ' :: rest))
      (by decide) (by decide) hr inp, if_pos rfl]
    rw [show ("200").toList ++ ' ' :: (("result=").toList ++ (t ++ ' ' :: rest))
        = ("200 result=").toList ++ (t ++ ' ' :: rest) from rfl]
    rw [parse200_resultHead ht2, parse200Res_space hd h1 h2 hrest]
  · intro r inp hr hacc
    have hstep : ("200 ").toList ++ r = ("200").toList ++ ' ' :: r := rfl
    rw [hstep] at hacc
    rw [hstep, parseResponse_dispatch (("200").toList) r (by decide) (by decide) hr inp,
      if_pos rfl]
    unfold accept200 at hacc
    by_cases hc : indexByte (("200").toList ++ ' ' :: r) '=' = 10
        ∧ indexByte (("200").toList ++ ' ' :: r) '=' < (((("200").toList ++ ' ' :: r)).length : Int) - 1
    · have hC : ¬ (indexByte ((("200").toList ++ ' ' :: r).drop 11) ' ' < 0
          ∨ (0 < indexByte ((("200").toList ++ ' ' :: r).drop 11) ' '
            ∧ indexByte ((("200").toList ++ ' ' :: r).drop 11) ' '
              < (((("200").toList ++ ' ' :: r).drop 11).length : Int) - 1)) :=
        fun hC => hacc ⟨hc.1, hc.2, hC⟩
    -- inside the accepted eqInd case the inner space conditions must both fail
      push_neg at hC
      have h11 : (indexByte (("200").toList ++ ' ' :: r) '=').toNat + 1 = 11 := by
        rw [hc.1]
        rfl
      refine ⟨(("200").toList ++ ' ' :: r).drop 11, ?_⟩
      simp only [parse200]
      rw [if_pos hc, h11]
      simp only [parse200Res]
      rw [if_neg (by omega : ¬ indexByte ((("200").toList ++ ' ' :: r).drop 11) ' ' < 0)]
      rw [if_neg (by
        intro hand
        have := hC.2 hand.1
        omega)]
    · refine ⟨("200").toList ++ ' ' :: r, ?_⟩
      simp only [parse200]
      rw [if_neg hc]

/-- Witness for C1 at the repository test lines `200 result=1` and
`200 result=1 (speech) endpos=1234 results=foo bar`, and at the malformed
line `200 result= 1`. -/
theorem parseResponse_200_success_shapes_witness :
    parseResponse ((("200 result=").toList ++ ("1").toList) :: ([] : List (List Char)))
        = ((⟨1, []⟩, none), [])
    ∧ parseResponse ((("200 result=").toList ++ ("1").toList
          ++ ' ' :: ("(speech) endpos=1234 results=foo bar").toList) :: ([] : List (List Char)))
        = ((⟨1, ("(speech) endpos=1234 results=foo bar").toList⟩, none), [])
    ∧ ∃ s, parseResponse ((("200 ").toList ++ ("result= 1").toList) :: ([] : List (List Char)))
        = ((⟨0, []⟩, some (AGIError.malformed200 s)), []) :=
  ⟨parseResponse_200_success_shapes.1 (("1").toList) 1 [] (by decide) (by decide) (by decide),
   parseResponse_200_success_shapes.2.1 (("1").toList)
     (("(speech) endpos=1234 results=foo bar").toList) 1 [] (by decide) (by decide) (by decide)
     (by decide),
   parseResponse_200_success_shapes.2.2 (("result= 1").toList) [] (by decide) (by decide)⟩

/-- Counterexample to claim C2: the line `200 foobar=1` has `foobar`, not the
literal `result`, between the first space and the first `=`, yet
`parseResponse` accepts it as a success (`Res = 1`, no error) instead of
returning the malformed-200 error the claim demands: the code checks only the
position of the first `=`, never the keyword text. -/
theorem parseResponse_result_keyword_counterexample :
    parseResponse [("200 foobar=1").toList] = ((⟨1, []⟩, none), []) := by decide

/-- Amended claim C2: a `200` line is accepted as a success shape based only on
the position of the first `=` (it must sit where it would immediately follow
`result`, i.e. at index 10, and not be the final character); the six characters
between the space and the `=` are never compared against `result`, so replacing
them by any other six `=`-free characters leaves the parse result unchanged. -/
theorem parseResponse_200_positional_only (t rest : List Char) (inp : List (List Char))
    (h6 : t.length = 6) (hne : '=' ∉ t) (hr : rest ≠ []) :
    parseResponse ((("200 ").toList ++ t ++ '=' :: rest) :: inp)
      = parseResponse ((("200 result=").toList ++ rest) :: inp) := by
  have hstep1 : ("200 ").toList ++ t ++ '=' :: rest
      = ("200").toList ++ ' ' :: (t ++ '=' :: rest) := by simp
  have hr1 : t ++ '=' :: rest ≠ [] := by simp
  rw [hstep1, parseResponse_dispatch (("200").toList) (t ++ '=' :: rest)
    (by decide) (by decide) hr1 inp, if_pos rfl]
  have hstep2 : ("200 result=").toList ++ rest
      = ("200").toList ++ ' ' :: (("result=").toList ++ rest) := rfl
  have hr2 : ("result=").toList ++ rest ≠ [] := by simp
  rw [hstep2, parseResponse_dispatch (("200").toList) (("result=").toList ++ rest)
    (by decide) (by decide) hr2 inp, if_pos rfl]
  have ha1 : ("200").toList ++ ' ' :: (t ++ '=' :: rest) = (("200 ").toList ++ t) ++ '=' :: rest := by
    simp
  have hnm1 : '=' ∉ ("200 ").toList ++ t := by
    intro hx
    rcases List.mem_append.mp hx with hx | hx
    · exact absurd hx (by decide)
    · exact hne hx
  have hp1 : (("200 ").toList ++ t).length = 10 := by simp [h6]
  have ha2 : ("200").toList ++ ' ' :: (("result=").toList ++ rest)
      = ("200 result").toList ++ '=' :: rest := rfl
  rw [ha1, ha2, parse200_eq_at10 (("200 ").toList ++ t) rest hp1 hnm1 hr,
    parse200_eq_at10 (("200 result").toList) rest (by decide) (by decide) hr]

/-- Witness for the amended C2: replacing `result` by `FOOBAR` leaves the
parse of a `200` line unchanged. -/
theorem parseResponse_200_positional_only_witness :
    parseResponse ((("200 ").toList ++ ("FOOBAR").toList ++ '=' :: ("1").toList)
        :: ([] : List (List Char)))
      = parseResponse ((("200 result=").toList ++ ("1").toList) :: ([] : List (List Char))) :=
  parseResponse_200_positional_only (("FOOBAR").toList) (("1").toList) []
    (by decide) (by decide) (by decide)

theorem parse200Res_reply_empty_of_err {l2 : List Char} {e : AGIError}
    (he : (parse200Res l2).2 = some e) (hne : ∀ ae, e ≠ AGIError.failedToParse200 ae) :
    (parse200Res l2).1 = ⟨0, []⟩ := by
  unfold parse200Res at he ⊢
  by_cases hs1 : indexByte l2 ' ' < 0
  · rw [if_pos hs1] at he ⊢
    rcases hA : atoi l2 with ⟨v, oe⟩
    rw [hA] at he
    cases oe with
    | none =>
      have he2 : (none : Option AGIError) = some e := he
      exact Option.noConfusion he2
    | some ae =>
      have he2 : some (AGIError.failedToParse200 ae) = some e := he
      injection he2 with h1
      exact absurd h1.symm (hne ae)
  · rw [if_neg hs1] at he ⊢
    by_cases hs2 : 0 < indexByte l2 ' ' ∧ indexByte l2 ' ' < (l2.length : Int) - 1
    · rw [if_pos hs2] at he ⊢
      rcases hA : atoi (l2.take (indexByte l2 ' ').toNat) with ⟨v, oe⟩
      rw [hA] at he
      cases oe with
      | none =>
        have he2 : (none : Option AGIError) = some e := he
        exact Option.noConfusion he2
      | some ae =>
        have he2 : some (AGIError.failedToParse200 ae) = some e := he
        injection he2 with h1
        exact absurd h1.symm (hne ae)
    · rw [if_neg hs2] at he ⊢

theorem parse200_reply_empty_of_err {line : List Char} {e : AGIError}
    (he : (parse200 line).2 = some e) (hne : ∀ ae, e ≠ AGIError.failedToParse200 ae) :
    (parse200 line).1 = ⟨0, []⟩ := by
  unfold parse200 at he ⊢
  by_cases hc : indexByte line '=' = 10 ∧ indexByte line '=' < (line.length : Int) - 1
  · rw [if_pos hc] at he ⊢
    exact parse200Res_reply_empty_of_err he hne
  · rw [if_neg hc] at he ⊢

/-- Counterexample to claim C3: on `200 result=x foo` the numeric conversion
fails, `parseResponse` returns the distinct parse-failure error, and yet the
returned Reply is not the empty/default one: its `Dat` field carries the
trailing payload `foo`. -/
theorem parseResponse_error_reply_counterexample :
    parseResponse [("200 result=x foo").toList]
      = ((⟨0, ("foo").toList⟩, some (AGIError.failedToParse200 AtoiErr.errSyn)), [])
    ∧ (⟨0, ("foo").toList⟩ : Reply) ≠ ⟨0, []⟩ := by
  constructor
  · decide
  · decide

/-- Amended claim C3: whenever `parseResponse` returns a non-nil error other
than the numeric parse-failure error, the returned Reply is the empty/default
one; when the error is the parse-failure error the Reply may still carry the
trailing payload in `Dat` (and the failed conversion's return value in `Res`). -/
theorem parseResponse_errors_leave_reply_empty :
    ∀ (input : List (List Char)) (e : AGIError),
      (parseResponse input).1.2 = some e → (∀ ae, e ≠ AGIError.failedToParse200 ae) →
      (parseResponse input).1.1 = ⟨0, []⟩ := by
  intro input e he hne
  match input with
  | [] => rfl
  | line :: rest =>
    simp only [parseResponse] at he ⊢
    by_cases h1 : indexByte line ' ' ≤ 0 ∨ indexByte line ' ' = (line.length : Int) - 1
    · rw [if_pos h1] at he ⊢
      by_cases hH : line = ("HANGUP").toList
      · rw [if_pos hH]
      · rw [if_neg hH]
    · rw [if_neg h1] at he ⊢
      by_cases c200 : line.take (indexByte line ' ').toNat = ("200").toList
      · rw [if_pos c200] at he ⊢
        exact parse200_reply_empty_of_err he hne
      · rw [if_neg c200] at he ⊢
        by_cases c510 : line.take (indexByte line ' ').toNat = ("510").toList
        · rw [if_pos c510]
        · rw [if_neg c510] at he ⊢
          by_cases c511 : line.take (indexByte line ' ').toNat = ("511").toList
          · rw [if_pos c511]
          · rw [if_neg c511] at he ⊢
            by_cases c520 : line.take (indexByte line ' ').toNat = ("520").toList
            · rw [if_pos c520]
            · rw [if_neg c520] at he ⊢
              by_cases c520i : line.take (indexByte line ' ').toNat = ("520-Invalid").toList
              · rw [if_pos c520i]
              · rw [if_neg c520i]

/-- Witness for the amended C3 at a malformed line: the error is not the
parse-failure error and the Reply is empty. -/
theorem parseResponse_errors_leave_reply_empty_witness :
    (parseResponse [("garbage line").toList]).1.1 = ⟨0, []⟩ :=
  parseResponse_errors_leave_reply_empty [("garbage line").toList]
    (AGIError.malformedAGI (("garbage line").toList)) (by decide)
    (fun _ h => AGIError.noConfusion h)

/-- Counterexample to claim C7: a block of 18 well-formed lines that reuse the
same key (`agi_test: 1` eighteen times, then the blank terminator) satisfies
the claim's hypotheses, yet `parseEnv` does not succeed: the map collapses to
a single entry and the incomplete-environment error is returned with the
mapping discarded. -/
theorem parseEnv_wellformed_block_counterexample :
    parseEnv (List.replicate 18 (("agi_test: 1").toList) ++ [[]])
      = ⟨none, some (EnvErr.envIncomplete 1), []⟩ := by decide

/-- Amended claim C7: for every environment block of at least 18 well-formed
`agi_<key>: <value>` lines with pairwise-distinct keys, at most 151 lines (the
`envMax + 1` read cap), followed by a blank line, `parseEnv` succeeds and
returns a mapping with exactly one entry per line, the keys stripped of the
4-character prefix and the values exactly the text after the colon-space. -/
theorem parseEnv_wellformed_block (kvs : List (List Char × List Char))
    (rest : List (List Char)) (hwf : ∀ kv ∈ kvs, wfKey kv.1)
    (hnd : (kvs.map Prod.fst).Nodup) (h18 : envMin ≤ kvs.length)
    (h151 : kvs.length ≤ envMax + 1) :
    (parseEnv ((kvs.map (fun kv => mkEnvLine kv.1 kv.2)) ++ [] :: rest)).env = some kvs
    ∧ (parseEnv ((kvs.map (fun kv => mkEnvLine kv.1 kv.2)) ++ [] :: rest)).err = none := by
  have hblock := envLoop_block kvs (envMax + 1) ([] :: rest) [] hwf h151
  have hfold : kvs.foldl envInsert [] = kvs := by
    have h := foldl_envInsert_nodup kvs [] (by simpa using hnd)
    simpa using h
  rw [hfold] at hblock
  have hL : (envLoop (envMax + 1 - kvs.length) ([] :: rest) kvs).env = kvs
      ∧ (envLoop (envMax + 1 - kvs.length) ([] :: rest) kvs).err = none
      ∧ (envLoop (envMax + 1 - kvs.length) ([] :: rest) kvs).aborted = false := by
    cases hm : envMax + 1 - kvs.length with
    | zero =>
      rw [envLoop_zero]
      exact ⟨rfl, rfl, rfl⟩
    | succ m =>
      rw [envLoop_blank]
      exact ⟨rfl, rfl, rfl⟩
  have hnotlt : ¬ ((envLoop (envMax + 1) ((kvs.map (fun kv => mkEnvLine kv.1 kv.2))
      ++ [] :: rest) []).env.length < envMin) := by
    rw [hblock, hL.1]
    omega
  constructor
  · simp only [parseEnv, hnotlt, if_false]
    rw [hblock, hL.2.2, hL.1]
    rfl
  · simp only [parseEnv, hnotlt, if_false]
    rw [hblock, hL.2.2, hL.2.1]
    rfl

/-- Witness for the amended C7 at the 18-entry sample block from the test data. -/
theorem parseEnv_wellformed_block_witness :
    (parseEnv ((sampleKVs.map (fun kv => mkEnvLine kv.1 kv.2))
        ++ [] :: ([] : List (List Char)))).env = some sampleKVs
    ∧ (parseEnv ((sampleKVs.map (fun kv => mkEnvLine kv.1 kv.2))
        ++ [] :: ([] : List (List Char)))).err = none :=
  parseEnv_wellformed_block sampleKVs [] (by decide) (by decide) (by decide) (by decide)

/-- Claim C8: when the read loop ends without the malformed-line early return
but with fewer than 18 collected entries, `parseEnv` discards the mapping and
returns the incomplete-environment error; consequently `parseEnv` only ever
hands back a present mapping when it has at least 18 entries. -/
theorem parseEnv_incomplete_guard :
    (∀ input : List (List Char),
      (envLoop (envMax + 1) input []).aborted = false →
      (envLoop (envMax + 1) input []).env.length < envMin →
      parseEnv input = ⟨none,
        some (EnvErr.envIncomplete (envLoop (envMax + 1) input []).env.length),
        (envLoop (envMax + 1) input []).rest⟩)
    ∧ (∀ (input : List (List Char)) (e : List (List Char × List Char)),
      (parseEnv input).env = some e → envMin ≤ e.length) := by
  constructor
  · intro input hab hlt
    simp [parseEnv, hab, hlt]
  · intro input e he
    unfold parseEnv at he
    by_cases hab : (envLoop (envMax + 1) input []).aborted
    · simp [hab] at he
    · by_cases hlt : (envLoop (envMax + 1) input []).env.length < envMin
      · simp [hab, hlt] at he
      · simp only [hab, Bool.false_eq_true, if_false, hlt, if_neg] at he
        have : (envLoop (envMax + 1) input []).env = e := by
          have hx : (⟨some (envLoop (envMax + 1) input []).env,
              (envLoop (envMax + 1) input []).err,
              (envLoop (envMax + 1) input []).rest⟩ : EnvParse).env = some e := he
          simpa using hx
        rw [← this]
        omega

/-- Witness for C8: the guard applied to the sample block shows its mapping
has at least 18 entries. -/
theorem parseEnv_incomplete_guard_witness : envMin ≤ sampleKVs.length :=
  parseEnv_incomplete_guard.2
    ((sampleKVs.map (fun kv => mkEnvLine kv.1 kv.2)) ++ [[]]) sampleKVs (by decide)

/-- Counterexample to claim C9: on a stream that ends, without a blank
terminator line, after the 18 well-formed sample lines, `parseEnv` keeps the
populated mapping but does not return "no error": it returns the pending read
error (end of stream) left behind by the final failed `ReadBytes` call, because
the current code no longer shadows the loop's `err` variable. -/
theorem parseEnv_eof_counterexample :
    (parseEnv (sampleKVs.map (fun kv => mkEnvLine kv.1 kv.2))).err = some EnvErr.envEOF
    ∧ (parseEnv (sampleKVs.map (fun kv => mkEnvLine kv.1 kv.2))).env = some sampleKVs := by
  constructor
  · decide
  · decide

/-- Amended claim C9: `parseEnv` stops its read loop at end of stream just as
it does on a blank line and, when at least 18 entries (with distinct keys, and
at most 150 lines so that the end of stream is actually observed) were
collected, the mapping stays populated — but the function returns the
propagated read error instead of nil. -/
theorem parseEnv_eof_keeps_env (kvs : List (List Char × List Char))
    (hwf : ∀ kv ∈ kvs, wfKey kv.1) (hnd : (kvs.map Prod.fst).Nodup)
    (h18 : envMin ≤ kvs.length) (h150 : kvs.length ≤ envMax) :
    (parseEnv (kvs.map (fun kv => mkEnvLine kv.1 kv.2))).env = some kvs
    ∧ (parseEnv (kvs.map (fun kv => mkEnvLine kv.1 kv.2))).err = some EnvErr.envEOF := by
  have hblock := envLoop_block kvs (envMax + 1) [] [] hwf (by omega)
  rw [List.append_nil] at hblock
  have hfold : kvs.foldl envInsert [] = kvs := by
    have h := foldl_envInsert_nodup kvs [] (by simpa using hnd)
    simpa using h
  rw [hfold] at hblock
  obtain ⟨m, hm⟩ : ∃ m, envMax + 1 - kvs.length = m + 1 := by
    refine ⟨envMax - kvs.length, ?_⟩
    omega
  rw [hm, envLoop_eof] at hblock
  have hnotlt : ¬ ((envLoop (envMax + 1) (kvs.map (fun kv => mkEnvLine kv.1 kv.2)) []).env.length
      < envMin) := by
    rw [hblock]
    show ¬ (kvs.length < envMin)
    omega
  constructor
  · simp only [parseEnv, hnotlt, if_false]
    rw [hblock]
    rfl
  · simp only [parseEnv, hnotlt, if_false]
    rw [hblock]
    rfl

/-- Witness for the amended C9 at the 18-entry sample block without a blank
terminator. -/
theorem parseEnv_eof_keeps_env_witness :
    (parseEnv (sampleKVs.map (fun kv => mkEnvLine kv.1 kv.2))).env = some sampleKVs
    ∧ (parseEnv (sampleKVs.map (fun kv => mkEnvLine kv.1 kv.2))).err = some EnvErr.envEOF :=
  parseEnv_eof_keeps_env sampleKVs (by decide) (by decide) (by decide) (by decide)

/-- Claim C10: `parseEnv` never checks that a space follows the colon.  Any
line whose first colon lies within the accepted bounds and is not the final
character is accepted; the stored key is the text between the 4-character
prefix and the colon and the stored value starts exactly two bytes after the
colon, so the byte immediately following the colon is silently dropped. -/
theorem parseEnvLine_no_space_check (line : List Char)
    (h8 : 8 ≤ indexByte line ':') (h18 : indexByte line ':' ≤ 18)
    (hne : indexByte line ':' ≠ (line.length : Int) - 1) :
    parseEnvLine line
        = Except.ok ((line.take (indexByte line ':').toNat).drop 4,
            line.drop ((indexByte line ':').toNat + 2))
    ∧ ∀ (fuel : Nat) (rest : List (List Char)) (env : List (List Char × List Char)),
      envLoop (fuel + 1) (line :: rest) env
        = envLoop fuel rest (envInsert env
            ((line.take (indexByte line ':').toNat).drop 4,
             line.drop ((indexByte line ':').toNat + 2))) := by
  have hcond : ¬ (indexByte line ':' < 8 ∨ 18 < indexByte line ':'
      ∨ indexByte line ':' = (line.length : Int) - 1) := by
    push_neg
    exact ⟨by omega, by omega, hne⟩
  have hok : parseEnvLine line
      = Except.ok ((line.take (indexByte line ':').toNat).drop 4,
          line.drop ((indexByte line ':').toNat + 2)) := by
    simp only [parseEnvLine]
    rw [if_neg hcond]
  refine ⟨hok, ?_⟩
  intro fuel rest env
  have hlt := indexByte_nonneg_lt (show (0 : Int) ≤ indexByte line ':' by omega)
  have hnb : ¬ (line.length + 1 ≤ 2) := by omega
  simp only [envLoop, hnb, if_false, hok]

/-- Witness for C10: `agi_channel:Xvalue` (no space after the colon) is
accepted with the `X` silently dropped from the value, and `agi_whatever:X`
is accepted with an empty value. -/
theorem parseEnvLine_no_space_check_witness :
    parseEnvLine (("agi_channel:Xvalue").toList)
        = Except.ok ((("channel").toList, ("value").toList))
    ∧ parseEnvLine (("agi_whatever:X").toList)
        = Except.ok ((("whatever").toList, ([] : List Char)))
    ∧ envLoop 1 [("agi_channel:Xvalue").toList] []
        = envLoop 0 [] (envInsert [] ((("channel").toList, ("value").toList))) := by
  have h1 := parseEnvLine_no_space_check (("agi_channel:Xvalue").toList)
    (by decide) (by decide) (by decide)
  have h2 := parseEnvLine_no_space_check (("agi_whatever:X").toList)
    (by decide) (by decide) (by decide)
  exact ⟨h1.1, h2.1, h1.2 0 [] []⟩
